import Mathlib

/-!
Shallow embedding of the SCM-MEBM energy-balance sea-ice model
(`src/idealized_model_activity/SCM_MEBM.py`) and proofs about it.

Numpy floating-point arithmetic is modelled as exact real arithmetic;
numpy boolean masks used as 0/1 multipliers are modelled by the
indicator function `ind`; `np.linalg.solve A b` is modelled as `A⁻¹ *ᵥ b`
(the unique solution when `A` is invertible, which is where the source is
defined); 1-D numpy arrays of length `n` are `Fin n → ℝ`.
-/

open Matrix

noncomputable section

namespace SCM

/-- Indicator of a proposition, as the real number a numpy boolean
contributes in arithmetic: `True ↦ 1`, `False ↦ 0`. -/
def ind (p : Prop) [Decidable p] : ℝ := if p then 1 else 0

theorem ind_pos {p : Prop} [Decidable p] (h : p) : ind p = 1 := if_pos h

theorem ind_neg {p : Prop} [Decidable p] (h : ¬ p) : ind p = 0 := if_neg h

/-- Source function `saturation_specific_humidity(T, Ps)`: Clausius-Clapeyron
saturation specific humidity, temperature in Celsius, pressure in Pa. -/
def saturation_specific_humidity (T Ps : ℝ) : ℝ :=
  let es0 : ℝ := 610.78
  let T0 : ℝ := 273.16
  let Rv : ℝ := 461.5
  let Lv : ℝ := 2.5e6
  let ep : ℝ := 0.622
  let TK : ℝ := T + 273.15
  let es : ℝ := es0 * Real.exp (-(Lv / Rv) * ((1 / TK) - (1 / T0)))
  ep * es / Ps

-- physical constants of `model`, in source order
def mld : ℝ := 60
def cday : ℝ := 86400.0
def cyear : ℝ := cday * 365.25
def cpsw : ℝ := 3.996e3
def rhosw : ℝ := 1.026e3
def cw : ℝ := cpsw * rhosw * mld / cyear
def D : ℝ := 0.3
def A : ℝ := 196
def B : ℝ := 1.8
def S1 : ℝ := 338
def S0 : ℝ := 420
def S2 : ℝ := 240
def a0 : ℝ := 0.7
def a2 : ℝ := 0.1
def ai : ℝ := 0.4
def Fb : ℝ := 0
def k : ℝ := 2
def Lf : ℝ := 9.5
def cg : ℝ := 0.098
def tau : ℝ := 1e-5
def Lv : ℝ := 2.5e6
def cp : ℝ := 1004.6
def RH : ℝ := 0.8
def Ps : ℝ := 1e5
def cg_tau : ℝ := cg / tau
def M : ℝ := B + cg_tau
def kLf : ℝ := k * Lf

/-- The grid dictionary handed to `model`. -/
structure Grid where
  n : ℕ
  dx : ℝ
  x : Fin n → ℝ
  xb : Fin (n - 1) → ℝ
  nt : ℕ
  dur : ℕ
  dt : ℝ

/-- Coupling strengths `lam = D/dx**2*(1-xb**2)` between adjacent cells. -/
def lam (dx : ℝ) {m : ℕ} (xb : Fin m → ℝ) (e : Fin m) : ℝ :=
  D / dx ^ 2 * (1 - xb e ^ 2)

/-- Source `L1 = np.append(0, -lam)`. -/
def L1 (n : ℕ) (dx : ℝ) (xb : Fin (n - 1) → ℝ) (i : Fin n) : ℝ :=
  if h : (i : ℕ) = 0 then 0 else -lam dx xb ⟨(i : ℕ) - 1, by omega⟩

/-- Source `L2 = np.append(-lam, 0)`. -/
def L2 (n : ℕ) (dx : ℝ) (xb : Fin (n - 1) → ℝ) (i : Fin n) : ℝ :=
  if h : (i : ℕ) < n - 1 then -lam dx xb ⟨(i : ℕ), h⟩ else 0

/-- Source `L3 = -L1-L2`. -/
def L3 (n : ℕ) (dx : ℝ) (xb : Fin (n - 1) → ℝ) (i : Fin n) : ℝ :=
  -L1 n dx xb i - L2 n dx xb i

/-- Source `diffop = -np.diag(L3) - np.diag(L2[:n-1],1) - np.diag(L1[1:n],-1)`:
entry `(i,j)` is `-L3 i` on the diagonal, `-L2 i` on the superdiagonal
(`j = i+1`), `-L1 i` on the subdiagonal (`i = j+1`), `0` elsewhere. -/
def diffop (n : ℕ) (dx : ℝ) (xb : Fin (n - 1) → ℝ) :
    Matrix (Fin n) (Fin n) ℝ :=
  Matrix.of fun i j =>
    -(if i = j then L3 n dx xb i else 0)
      - (if (j : ℕ) = (i : ℕ) + 1 then L2 n dx xb i else 0)
      - (if (i : ℕ) = (j : ℕ) + 1 then L1 n dx xb i else 0)

def dt_tau (g : Grid) : ℝ := g.dt / tau

def dc (g : Grid) : ℝ := dt_tau g * cg_tau

/-- Source `kappa = (1+dt_tau)*np.identity(n)-dt*diffop/cg`. -/
def kappa (g : Grid) : Matrix (Fin g.n) (Fin g.n) ℝ :=
  (1 + dt_tau g) • (1 : Matrix (Fin g.n) (Fin g.n) ℝ)
    - (g.dt / cg) • diffop g.n g.dx g.xb

/-- Source `ty = np.arange(dt/2, 1+dt/2, dt)`: entry `i` is `dt/2 + i*dt`
(for `dt = 1/nt` the arange has exactly `nt` entries; we index by `ℕ`,
the loop only ever reads indices `< nt`). -/
def ty (g : Grid) (i : ℕ) : ℝ := g.dt / 2 + (i : ℝ) * g.dt

/-- Row `i`, column `j` of the insolation array `S` before clipping:
`(S0 - S2*x**2) - S1*cos(2*pi*ty[i]) * x`. -/
def insolRaw (g : Grid) (i : ℕ) (j : Fin g.n) : ℝ :=
  (S0 - S2 * g.x j ^ 2) - S1 * Real.cos (2 * Real.pi * ty g i) * g.x j

/-- Clipping `S = np.where(S<0,0,S)`: insolation with negative values zeroed. -/
def insol (g : Grid) (i : ℕ) (j : Fin g.n) : ℝ :=
  if insolRaw g i j < 0 then 0 else insolRaw g i j

/-- Open-water co-albedo `aw = a0-a2*x**2` of each cell. -/
def aw (g : Grid) (j : Fin g.n) : ℝ := a0 - a2 * g.x j ^ 2

/-- The per-substep model state: surface temperature `T`, enthalpy `E`,
ghost-layer temperature `Tg` (one value per cell). -/
structure State (n : ℕ) where
  T : Fin n → ℝ
  E : Fin n → ℝ
  Tg : Fin n → ℝ

/-- Source `alpha = aw*(E>0) + ai*(E<0)` when the sea-ice albedo feedback is on,
`alpha = aw` when it is off. -/
def alphaOf (ab : Bool) (g : Grid) (E : Fin g.n → ℝ)
    (j : Fin g.n) : ℝ :=
  if ab then aw g j * ind (E j > 0) + ai * ind (E j < 0) else aw g j

/-- Source `C = alpha*S[i,:] + cg_tau*Tg - A + F`. -/
def CAt (g : Grid) (F : ℝ) (ab : Bool) (i : ℕ)
    (s : State g.n) (j : Fin g.n) : ℝ :=
  alphaOf ab g s.E j * insol g i j + cg_tau * s.Tg j - A + F

/-- Source `T0 = C/(M-kLf/E)` with sea-ice thermodynamics on, else `T0 = E/cw`. -/
def T0At (g : Grid) (F : ℝ) (ab th : Bool) (i : ℕ)
    (s : State g.n) (j : Fin g.n) : ℝ :=
  if th then CAt g F ab i s j / (M - kLf / s.E j) else s.E j / cw

/-- Source `T = E/cw*(E>=0)+T0*(E<0)*(T0<0)`: the surface-temperature update. -/
def TnewAt (g : Grid) (F : ℝ) (ab th : Bool) (i : ℕ)
    (s : State g.n) (j : Fin g.n) : ℝ :=
  s.E j / cw * ind (s.E j ≥ 0)
    + T0At g F ab th i s j * ind (s.E j < 0) * ind (T0At g F ab th i s j < 0)

/-- Source `E = E+dt*(C-M*T+Fb)`: forward Euler on the enthalpy, using the
surface temperature already updated in the same substep. -/
def EnewAt (g : Grid) (F : ℝ) (ab th : Bool) (i : ℕ)
    (s : State g.n) (j : Fin g.n) : ℝ :=
  s.E j + g.dt * (CAt g F ab i s j - M * TnewAt g F ab th i s j + Fb)

/-- The implicit Euler update of the ghost-layer temperature:
`q = RH * saturation_specific_humidity(Tg,Ps)`,
`rhs1 = np.matmul(dt*diffop/cg, Lv*q/cp)`, then a dense linear solve
(modelled as multiplication by the matrix inverse).  As in the source,
the solve reads the enthalpy **after** this substep's explicit update
but the `T0` computed **before** it. -/
def TgnewAt (g : Grid) (F : ℝ) (ab th : Bool) (i : ℕ)
    (s : State g.n) : Fin g.n → ℝ :=
  let q : Fin g.n → ℝ := fun j => RH * saturation_specific_humidity (s.Tg j) Ps
  let rhs1 : Fin g.n → ℝ :=
    ((g.dt / cg) • diffop g.n g.dx g.xb) *ᵥ fun j => Lv * q j / cp
  let E' : Fin g.n → ℝ := EnewAt g F ab th i s
  let T0 : Fin g.n → ℝ := T0At g F ab th i s
  if th then
    (kappa g - Matrix.diagonal fun j =>
        dc g / (M - kLf / E' j) * ind (T0 j < 0) * ind (E' j < 0))⁻¹ *ᵥ
      fun j => s.Tg j + rhs1 j
        + dt_tau g * (E' j / cw * ind (E' j ≥ 0)
          + (ai * insol g i j - A + F) / (M - kLf / E' j)
            * ind (T0 j < 0) * ind (E' j < 0))
  else
    (kappa g)⁻¹ *ᵥ fun j => s.Tg j + rhs1 j + dt_tau g * (E' j / cw)

/-- One substep of the integration loop.  Substep counter `kk` runs over
`0, …, dur*nt - 1`; the within-year index is `i = kk % nt`. -/
def stepAt (g : Grid) (F : ℝ) (ab th : Bool) (kk : ℕ)
    (s : State g.n) : State g.n :=
  { T := TnewAt g F ab th (kk % g.nt) s
    E := EnewAt g F ab th (kk % g.nt) s
    Tg := TgnewAt g F ab th (kk % g.nt) s }

/-- The state entering substep `kk` (so `stateAt 0` is the initial state:
`Tg = T_init`, `E = cw*T_init`, `T = T_init`). -/
def stateAt (g : Grid) (Tinit : Fin g.n → ℝ) (F : ℝ)
    (ab th : Bool) : ℕ → State g.n
  | 0 => { T := Tinit, E := fun j => cw * Tinit j, Tg := Tinit }
  | kk + 1 => stepAt g F ab th kk (stateAt g Tinit F ab th kk)

/-- The substep of the final year whose column is `i`. -/
def kFinal (g : Grid) (i : ℕ) : ℕ := (g.dur - 1) * g.nt + i

/-- Output `Es_output[j, i]`: enthalpy snapshotted (pre-update) at substep `i` of
the final year. -/
def EsFun (g : Grid) (Tinit : Fin g.n → ℝ) (F : ℝ)
    (ab th : Bool) (j : Fin g.n) (i : Fin g.nt) : ℝ :=
  (stateAt g Tinit F ab th (kFinal g i)).E j

/-- Output `Ts_output[j, i]`: surface temperature snapshotted (pre-update). -/
def TsFun (g : Grid) (Tinit : Fin g.n → ℝ) (F : ℝ)
    (ab th : Bool) (j : Fin g.n) (i : Fin g.nt) : ℝ :=
  (stateAt g Tinit F ab th (kFinal g i)).T j

/-- Output `ASR_output[j, i] = alpha*S[i,:]` with `alpha` from this substep's
pre-update enthalpy. -/
def ASRFun (g : Grid) (Tinit : Fin g.n → ℝ) (F : ℝ)
    (ab th : Bool) (j : Fin g.n) (i : Fin g.nt) : ℝ :=
  alphaOf ab g (stateAt g Tinit F ab th (kFinal g i)).E j * insol g i j

/-- Output `Hi_output = -Es_output/Lf*(Es_output<0)`: derived ice thickness. -/
def HiFun (g : Grid) (Tinit : Fin g.n → ℝ) (F : ℝ)
    (ab th : Bool) (j : Fin g.n) (i : Fin g.nt) : ℝ :=
  -EsFun g Tinit F ab th j i / Lf * ind (EsFun g Tinit F ab th j i < 0)

/-- Time axis `np.linspace(0, 1, nt)`: entry `i` is `i/(nt-1)`; for `nt = 1` numpy
returns the single value `0`. -/
def linspace01 (nt : ℕ) (i : Fin nt) : ℝ :=
  if nt ≤ 1 then 0 else (i : ℝ) / ((nt : ℝ) - 1)

/-- What `model` returns: the time axis and the four output arrays,
as a length-`n` list of length-`nt` rows each. -/
structure Output where
  time : List ℝ
  Es : List (List ℝ)
  Ts : List (List ℝ)
  Hi : List (List ℝ)
  ASR : List (List ℝ)

/-- The `model` entry point: run `dur*nt` substeps from the initial state
and assemble `time, Es_output, Ts_output, Hi_output, ASR_output`. -/
def integrate (g : Grid) (Tinit : Fin g.n → ℝ) (F : ℝ)
    (ab th : Bool) : Output :=
  { time := List.ofFn fun i : Fin g.nt => linspace01 g.nt i
    Es := List.ofFn fun j : Fin g.n =>
      List.ofFn fun i : Fin g.nt => EsFun g Tinit F ab th j i
    Ts := List.ofFn fun j : Fin g.n =>
      List.ofFn fun i : Fin g.nt => TsFun g Tinit F ab th j i
    Hi := List.ofFn fun j : Fin g.n =>
      List.ofFn fun i : Fin g.nt => HiFun g Tinit F ab th j i
    ASR := List.ofFn fun j : Fin g.n =>
      List.ofFn fun i : Fin g.nt => ASRFun g Tinit F ab th j i }

/-! ### Helper lemmas and concrete instances -/

/-- A one-cell grid with `nt = dur = dt = 1` (a valid grid: `dt*nt = 1`). -/
def gA : Grid :=
  { n := 1, dx := 1, x := fun _ => 0, xb := fun e => e.elim0
    nt := 1, dur := 1, dt := 1 }

theorem cw_pos : 0 < cw := by
  norm_num [cw, cpsw, rhosw, mld, cyear, cday]

theorem Lf_pos : 0 < Lf := by norm_num [Lf]

theorem stateAt_zero (g : Grid) (Tinit : Fin g.n → ℝ) (F : ℝ) (ab th : Bool) :
    stateAt g Tinit F ab th 0
      = { T := Tinit, E := fun j => cw * Tinit j, Tg := Tinit } := rfl

/-- At a cell whose sine-latitude coordinate is `0`, the insolation is the
constant `S0` at every substep (the seasonal term is multiplied by `x`). -/
theorem insol_of_x_eq_zero (g : Grid) (i : ℕ) (j : Fin g.n)
    (hx : g.x j = 0) : insol g i j = S0 := by
  have hraw : insolRaw g i j = S0 := by simp [insolRaw, hx]
  rw [insol, hraw, if_neg (by norm_num [S0])]

theorem alphaOf_on_pos (g : Grid) (E : Fin g.n → ℝ) (j : Fin g.n)
    (h : 0 < E j) : alphaOf true g E j = aw g j := by
  rw [alphaOf, if_pos rfl, ind_pos h, ind_neg (by linarith)]
  ring

theorem alphaOf_on_neg (g : Grid) (E : Fin g.n → ℝ) (j : Fin g.n)
    (h : E j < 0) : alphaOf true g E j = ai := by
  rw [alphaOf, if_pos rfl, ind_pos h, ind_neg (by linarith)]
  ring

theorem alphaOf_on_zero (g : Grid) (E : Fin g.n → ℝ) (j : Fin g.n)
    (h : E j = 0) : alphaOf true g E j = 0 := by
  rw [alphaOf, if_pos rfl, ind_neg (by rw [h]; exact lt_irrefl 0),
    ind_neg (by rw [h]; exact lt_irrefl 0)]
  ring

theorem alphaOf_off (g : Grid) (E : Fin g.n → ℝ) (j : Fin g.n) :
    alphaOf false g E j = aw g j := rfl

/-- Open-water branch of the surface-temperature update. -/
theorem TnewAt_open_water (g : Grid) (F : ℝ) (ab th : Bool) (i : ℕ)
    (s : State g.n) (j : Fin g.n) (hE : 0 ≤ s.E j) :
    TnewAt g F ab th i s j = s.E j / cw := by
  rw [TnewAt, ind_pos hE, ind_neg (not_lt.mpr hE)]
  ring

/-- Frozen-surface branch of the surface-temperature update. -/
theorem TnewAt_freezing (g : Grid) (F : ℝ) (ab th : Bool) (i : ℕ)
    (s : State g.n) (j : Fin g.n) (hE : s.E j < 0)
    (hT0 : T0At g F ab th i s j < 0) :
    TnewAt g F ab th i s j = T0At g F ab th i s j := by
  rw [TnewAt, ind_neg (not_le.mpr hE), ind_pos hE, ind_pos hT0]
  ring

/-- Melting branch of the surface-temperature update: both mask products
vanish and the updated temperature is `0`. -/
theorem TnewAt_melting (g : Grid) (F : ℝ) (ab th : Bool) (i : ℕ)
    (s : State g.n) (j : Fin g.n) (hE : s.E j < 0)
    (hT0 : 0 ≤ T0At g F ab th i s j) :
    TnewAt g F ab th i s j = 0 := by
  rw [TnewAt, ind_neg (not_le.mpr hE), ind_neg (not_lt.mpr hT0)]
  ring

theorem stateAt_succ_T (g : Grid) (Tinit : Fin g.n → ℝ) (F : ℝ)
    (ab th : Bool) (kk : ℕ) :
    (stateAt g Tinit F ab th (kk + 1)).T
      = TnewAt g F ab th (kk % g.nt) (stateAt g Tinit F ab th kk) := rfl

theorem stateAt_succ_E (g : Grid) (Tinit : Fin g.n → ℝ) (F : ℝ)
    (ab th : Bool) (kk : ℕ) :
    (stateAt g Tinit F ab th (kk + 1)).E
      = EnewAt g F ab th (kk % g.nt) (stateAt g Tinit F ab th kk) := rfl

/-! ### Claim C1 -/

/-- C1, counterexample: it is not the case that, whenever a cell has
`E < 0` and `T0 ≥ 0` at a substep, the updated surface temperature keeps
its prior value.  On the one-cell grid with `T_init = -1` and forcing
`F = 10000`, the first substep has `E = -cw < 0` and `T0 ≥ 0`, but the
updated temperature is `0` while the prior one is `-1`. -/
theorem C1_counterexample :
    ¬ (∀ (g : Grid) (Tinit : Fin g.n → ℝ) (F : ℝ) (ab th : Bool) (kk : ℕ)
        (j : Fin g.n),
        (stateAt g Tinit F ab th kk).E j < 0 →
        0 ≤ T0At g F ab th (kk % g.nt) (stateAt g Tinit F ab th kk) j →
        (stateAt g Tinit F ab th (kk + 1)).T j
          = (stateAt g Tinit F ab th kk).T j) := by
  intro hclaim
  set j0 : Fin gA.n := ⟨0, Nat.one_pos⟩ with hj0
  set s0 : State gA.n := stateAt gA (fun _ => -1) 10000 true true 0 with hs0
  have hE : s0.E j0 = -cw := by simp [hs0, stateAt_zero]
  have hEneg : s0.E j0 < 0 := by rw [hE]; linarith [cw_pos]
  have halpha : alphaOf true gA s0.E j0 = ai := alphaOf_on_neg gA s0.E j0 hEneg
  have hC : CAt gA 10000 true (0 % gA.nt) s0 j0 = 172 := by
    rw [CAt, halpha, insol_of_x_eq_zero gA _ j0 rfl]
    have hTg : s0.Tg j0 = -1 := by simp [hs0, stateAt_zero]
    rw [hTg]
    norm_num [ai, S0, cg_tau, cg, tau, A]
  have hden : 0 < M - kLf / s0.E j0 := by
    rw [hE]
    have h1 : kLf / -cw = -(kLf / cw) := by ring
    have h2 : 0 < kLf / cw := div_pos (by norm_num [kLf, k, Lf]) cw_pos
    rw [h1]
    have hM : (0:ℝ) < M := by norm_num [M, B, cg_tau, cg, tau]
    linarith
  have hT0 : 0 ≤ T0At gA 10000 true true (0 % gA.nt) s0 j0 := by
    rw [T0At, if_pos rfl, hC]
    positivity
  have := hclaim gA (fun _ => -1) 10000 true true 0 j0 hEneg hT0
  rw [stateAt_succ_T, ← hs0,
    TnewAt_melting gA 10000 true true (0 % gA.nt) s0 j0 hEneg hT0] at this
  have hTold : s0.T j0 = -1 := by simp [hs0, stateAt_zero]
  rw [hTold] at this
  norm_num at this

/-- C1 (amended): in every substep of `integrate`, the surface-temperature
update is the full per-cell case split `T = E/cw` where `E ≥ 0`,
`T = T0` where `E < 0` and `T0 < 0`, and `T = 0` in the remaining case
(`E < 0` and `T0 ≥ 0`) — one branch value per cell, never a blend. -/
theorem C1_surface_temperature_case_split (g : Grid) (Tinit : Fin g.n → ℝ)
    (F : ℝ) (ab th : Bool) (kk : ℕ) (j : Fin g.n) :
    (0 ≤ (stateAt g Tinit F ab th kk).E j →
      (stateAt g Tinit F ab th (kk + 1)).T j
        = (stateAt g Tinit F ab th kk).E j / cw) ∧
    ((stateAt g Tinit F ab th kk).E j < 0 →
      T0At g F ab th (kk % g.nt) (stateAt g Tinit F ab th kk) j < 0 →
      (stateAt g Tinit F ab th (kk + 1)).T j
        = T0At g F ab th (kk % g.nt) (stateAt g Tinit F ab th kk) j) ∧
    ((stateAt g Tinit F ab th kk).E j < 0 →
      0 ≤ T0At g F ab th (kk % g.nt) (stateAt g Tinit F ab th kk) j →
      (stateAt g Tinit F ab th (kk + 1)).T j = 0) := by
  refine ⟨fun hE => ?_, fun hE hT0 => ?_, fun hE hT0 => ?_⟩
  · rw [stateAt_succ_T]
    exact TnewAt_open_water g F ab th _ _ j hE
  · rw [stateAt_succ_T]
    exact TnewAt_freezing g F ab th _ _ j hE hT0
  · rw [stateAt_succ_T]
    exact TnewAt_melting g F ab th _ _ j hE hT0

/-- C1, witness: on the one-cell grid with `T_init = 0`, the first substep
has `E = 0 ≥ 0` and the updated surface temperature is `E/cw`. -/
theorem C1_witness :
    0 ≤ (stateAt gA (fun _ => 0) 0 true true 0).E ⟨0, Nat.one_pos⟩ ∧
    (stateAt gA (fun _ => 0) 0 true true 1).T ⟨0, Nat.one_pos⟩
      = (stateAt gA (fun _ => 0) 0 true true 0).E ⟨0, Nat.one_pos⟩ / cw := by
  have hE : 0 ≤ (stateAt gA (fun _ => 0) 0 true true 0).E ⟨0, Nat.one_pos⟩ := by
    simp [stateAt_zero]
  exact ⟨hE,
    (C1_surface_temperature_case_split gA (fun _ => 0) 0 true true 0
      ⟨0, Nat.one_pos⟩).1 hE⟩

/-! ### Claim C2 -/

/-- C2, counterexample: it is not the case that, with the albedo feedback
enabled, the co-albedo equals the open-water value at every cell whose
enthalpy is `≥ 0`.  On the one-cell grid with `T_init = 0` the first
substep has `E = 0`, where both masks `E>0` and `E<0` vanish: the
co-albedo is `0`, not the open-water value `0.7`. -/
theorem C2_counterexample :
    ¬ (∀ (g : Grid) (Tinit : Fin g.n → ℝ) (F : ℝ) (th : Bool) (kk : ℕ)
        (j : Fin g.n),
        0 ≤ (stateAt g Tinit F true th kk).E j →
        alphaOf true g (stateAt g Tinit F true th kk).E j = aw g j) := by
  intro hclaim
  set j0 : Fin gA.n := ⟨0, Nat.one_pos⟩ with hj0
  have hE : (stateAt gA (fun _ => 0) 0 true true 0).E j0 = 0 := by
    simp [stateAt_zero]
  have := hclaim gA (fun _ => 0) 0 true 0 j0 (le_of_eq hE.symm)
  rw [alphaOf_on_zero gA _ j0 hE] at this
  have haw : aw gA j0 = 0.7 := by
    norm_num [aw, a0, a2, show gA.x j0 = 0 from rfl]
  rw [haw] at this
  norm_num at this

/-- C2 (amended): in every substep of `integrate` with the sea-ice albedo
feedback enabled, the per-cell co-albedo equals the open-water value
`a0 - a2*x^2` where the enthalpy is `> 0`, the ice value `ai` where it is
`< 0`, and `0` where it is exactly `0` (both strict masks vanish there);
with the feedback disabled it equals the open-water value everywhere. -/
theorem C2_co_albedo (g : Grid) (Tinit : Fin g.n → ℝ) (F : ℝ) (th : Bool)
    (kk : ℕ) (j : Fin g.n) :
    (0 < (stateAt g Tinit F true th kk).E j →
      alphaOf true g (stateAt g Tinit F true th kk).E j = aw g j) ∧
    ((stateAt g Tinit F true th kk).E j < 0 →
      alphaOf true g (stateAt g Tinit F true th kk).E j = ai) ∧
    ((stateAt g Tinit F true th kk).E j = 0 →
      alphaOf true g (stateAt g Tinit F true th kk).E j = 0) ∧
    (∀ ab : Bool, ab = false →
      alphaOf ab g (stateAt g Tinit F ab th kk).E j = aw g j) := by
  refine ⟨fun h => alphaOf_on_pos g _ j h, fun h => alphaOf_on_neg g _ j h,
    fun h => alphaOf_on_zero g _ j h, fun ab hab => ?_⟩
  subst hab
  exact alphaOf_off g _ j

/-- C2, witness: on the one-cell grid with `T_init = -1`, the first substep
has `E < 0` and the co-albedo there is the ice value `ai`. -/
theorem C2_witness :
    (stateAt gA (fun _ => -1) 0 true true 0).E ⟨0, Nat.one_pos⟩ < 0 ∧
    alphaOf true gA (stateAt gA (fun _ => -1) 0 true true 0).E ⟨0, Nat.one_pos⟩
      = ai := by
  have hE : (stateAt gA (fun _ => -1) 0 true true 0).E ⟨0, Nat.one_pos⟩ < 0 := by
    have : (stateAt gA (fun _ => -1) 0 true true 0).E ⟨0, Nat.one_pos⟩
        = -cw := by simp [stateAt_zero]
    rw [this]
    linarith [cw_pos]
  exact ⟨hE,
    (C2_co_albedo gA (fun _ => -1) 0 true 0 ⟨0, Nat.one_pos⟩).2.1 hE⟩

/-! ### Claim C3 -/

/-- C3: in every substep of `integrate`, the enthalpy advances by one
explicit forward-Euler step `E ← E + dt*(C - M*T + Fb)` with
`C = albedo*insolation[i] + cg_tau*Tg - A + forcing`, `cg_tau = cg/tau`,
`M = B + cg_tau`, and `T` the surface temperature already updated in the
same substep. -/
theorem C3_enthalpy_forward_euler (g : Grid) (Tinit : Fin g.n → ℝ) (F : ℝ)
    (ab th : Bool) (kk : ℕ) (j : Fin g.n) :
    (stateAt g Tinit F ab th (kk + 1)).E j
      = (stateAt g Tinit F ab th kk).E j
        + g.dt * ((alphaOf ab g (stateAt g Tinit F ab th kk).E j
              * insol g (kk % g.nt) j
            + cg_tau * (stateAt g Tinit F ab th kk).Tg j - A + F)
          - M * (stateAt g Tinit F ab th (kk + 1)).T j + Fb)
      ∧ cg_tau = cg / tau ∧ M = B + cg_tau := by
  refine ⟨?_, rfl, rfl⟩
  rw [stateAt_succ_E, stateAt_succ_T, EnewAt, CAt]

/-! ### Claim C4 -/

/-- C4: the returned ice-thickness array equals `-E/Lf` at every
(cell, substep) of the final year where the recorded enthalpy is `< 0`,
is exactly `0` where the recorded enthalpy is `≥ 0`, and is non-negative
everywhere. -/
theorem C4_ice_thickness (g : Grid) (Tinit : Fin g.n → ℝ) (F : ℝ)
    (ab th : Bool) (j : Fin g.n) (i : Fin g.nt) :
    (EsFun g Tinit F ab th j i < 0 →
      HiFun g Tinit F ab th j i = -EsFun g Tinit F ab th j i / Lf) ∧
    (0 ≤ EsFun g Tinit F ab th j i → HiFun g Tinit F ab th j i = 0) ∧
    0 ≤ HiFun g Tinit F ab th j i := by
  refine ⟨fun h => ?_, fun h => ?_, ?_⟩
  · rw [HiFun, ind_pos h]
    ring
  · rw [HiFun, ind_neg (not_lt.mpr h)]
    ring
  · rcases lt_or_le (EsFun g Tinit F ab th j i) 0 with h | h
    · rw [HiFun, ind_pos h]
      have : 0 < -EsFun g Tinit F ab th j i / Lf :=
        div_pos (by linarith) Lf_pos
      linarith
    · rw [HiFun, ind_neg (not_lt.mpr h)]
      simp

/-- C4, witness: on the one-cell grid with `T_init = 0`, the recorded
enthalpy at (cell 0, substep 0) is `0 ≥ 0` and the ice thickness there
is `0`. -/
theorem C4_witness :
    0 ≤ EsFun gA (fun _ => 0) 0 true true ⟨0, Nat.one_pos⟩ ⟨0, Nat.one_pos⟩ ∧
    HiFun gA (fun _ => 0) 0 true true ⟨0, Nat.one_pos⟩ ⟨0, Nat.one_pos⟩ = 0 := by
  have hE : 0 ≤ EsFun gA (fun _ => 0) 0 true true
      ⟨0, Nat.one_pos⟩ ⟨0, Nat.one_pos⟩ := by
    simp [EsFun, kFinal, stateAt_zero, gA]
  exact ⟨hE,
    (C4_ice_thickness gA (fun _ => 0) 0 true true
      ⟨0, Nat.one_pos⟩ ⟨0, Nat.one_pos⟩).2.1 hE⟩

/-! ### Claim C5 -/

/-- A one-cell grid with `nt = 2`, `dt = 1/2`, `dur = 1` (valid). -/
def gB : Grid :=
  { n := 1, dx := 1, x := fun _ => 0, xb := fun e => e.elim0
    nt := 2, dur := 1, dt := 1 / 2 }

theorem linspace01_at_zero (nt : ℕ) (h : 0 < nt) :
    linspace01 nt ⟨0, h⟩ = 0 := by
  rw [linspace01]
  split <;> simp

theorem linspace01_at_last (nt : ℕ) (h : 2 ≤ nt) :
    linspace01 nt ⟨nt - 1, by omega⟩ = 1 := by
  rw [linspace01, if_neg (by omega)]
  have hcast : ((nt - 1 : ℕ) : ℝ) = (nt : ℝ) - 1 := by
    push_cast [Nat.cast_sub (by omega : 1 ≤ nt)]
    ring
  rw [hcast]
  have hne : (nt : ℝ) - 1 ≠ 0 := by
    have : (2 : ℝ) ≤ (nt : ℝ) := by exact_mod_cast h
    linarith
  exact div_self hne

/-- C5, counterexample: on the valid grid with `n = nt = dur = 1`
(`dt = 1`, so `dt*nt = 1`), `np.linspace(0,1,1)` is the single value `0`:
the returned time axis does not attain `1`, hence does not span `[0,1]`. -/
theorem C5_counterexample :
    ¬ (∀ (g : Grid) (Tinit : Fin g.n → ℝ) (F : ℝ) (ab th : Bool),
        1 ≤ g.n → 1 ≤ g.nt → 1 ≤ g.dur → g.dt * (g.nt : ℝ) = 1 →
        (1 : ℝ) ∈ (integrate g Tinit F ab th).time) := by
  intro hclaim
  have h1 := hclaim gA (fun _ => 0) 0 true true (le_refl 1) (le_refl 1)
    (le_refl 1) (by norm_num [gA])
  have ht : (integrate gA (fun _ => 0) 0 true true).time = [0] := by
    have : (integrate gA (fun _ => 0) 0 true true).time
        = List.ofFn fun i : Fin 1 => linspace01 1 i := rfl
    rw [this, List.ofFn_succ, List.ofFn_zero]
    simp [linspace01]
  rw [ht] at h1
  simp at h1

/-- C5 (amended): for every valid grid (`n ≥ 1`, `nt ≥ 1`, `dur ≥ 1`,
`dt*nt = 1`), the four output arrays have shape exactly `(n, nt)` and the
time axis has length `nt` with every value in `[0,1]`; it attains both
endpoints `0` and `1` whenever `nt ≥ 2`, while for `nt = 1` it is the
single value `0` (numpy `linspace(0,1,1)`), which does not reach `1`. -/
theorem C5_output_shapes (g : Grid) (Tinit : Fin g.n → ℝ) (F : ℝ)
    (ab th : Bool) (hn : 1 ≤ g.n) (hnt : 1 ≤ g.nt) (hdur : 1 ≤ g.dur)
    (hdt : g.dt * (g.nt : ℝ) = 1) :
    (integrate g Tinit F ab th).Es.length = g.n ∧
    (∀ r ∈ (integrate g Tinit F ab th).Es, r.length = g.nt) ∧
    (integrate g Tinit F ab th).Ts.length = g.n ∧
    (∀ r ∈ (integrate g Tinit F ab th).Ts, r.length = g.nt) ∧
    (integrate g Tinit F ab th).Hi.length = g.n ∧
    (∀ r ∈ (integrate g Tinit F ab th).Hi, r.length = g.nt) ∧
    (integrate g Tinit F ab th).ASR.length = g.n ∧
    (∀ r ∈ (integrate g Tinit F ab th).ASR, r.length = g.nt) ∧
    (integrate g Tinit F ab th).time.length = g.nt ∧
    (∀ t ∈ (integrate g Tinit F ab th).time, 0 ≤ t ∧ t ≤ 1) ∧
    (2 ≤ g.nt → (0 : ℝ) ∈ (integrate g Tinit F ab th).time ∧
      (1 : ℝ) ∈ (integrate g Tinit F ab th).time) ∧
    (g.nt = 1 → (integrate g Tinit F ab th).time = [0]) := by
  refine ⟨by simp [integrate], ?_, by simp [integrate], ?_,
    by simp [integrate], ?_, by simp [integrate], ?_,
    by simp [integrate], ?_, ?_, ?_⟩
  · intro r hr
    rw [integrate] at hr
    simp only [List.mem_ofFn] at hr
    obtain ⟨jj, rfl⟩ := hr
    simp
  · intro r hr
    rw [integrate] at hr
    simp only [List.mem_ofFn] at hr
    obtain ⟨jj, rfl⟩ := hr
    simp
  · intro r hr
    rw [integrate] at hr
    simp only [List.mem_ofFn] at hr
    obtain ⟨jj, rfl⟩ := hr
    simp
  · intro r hr
    rw [integrate] at hr
    simp only [List.mem_ofFn] at hr
    obtain ⟨jj, rfl⟩ := hr
    simp
  · intro t ht
    rw [integrate] at ht
    simp only [List.mem_ofFn] at ht
    obtain ⟨i, rfl⟩ := ht
    simp only [linspace01]
    split
    · exact ⟨le_refl 0, zero_le_one⟩
    · rename_i hgt
      have h2 : 2 ≤ g.nt := by omega
      have hpos : (0 : ℝ) < (g.nt : ℝ) - 1 := by
        have : (2 : ℝ) ≤ (g.nt : ℝ) := by exact_mod_cast h2
        linarith
      constructor
      · exact div_nonneg (by positivity) (le_of_lt hpos)
      · rw [div_le_one hpos]
        have : (i : ℕ) + 1 ≤ g.nt := i.isLt
        have hc : (i : ℝ) + 1 ≤ (g.nt : ℝ) := by exact_mod_cast this
        linarith
  · intro h2
    constructor
    · rw [integrate]
      simp only [List.mem_ofFn]
      exact ⟨⟨0, by omega⟩, linspace01_at_zero g.nt (by omega)⟩
    · rw [integrate]
      simp only [List.mem_ofFn]
      exact ⟨⟨g.nt - 1, by omega⟩, linspace01_at_last g.nt h2⟩
  · intro h1
    have hfun : (fun i : Fin g.nt => linspace01 g.nt i)
        = fun _ => (0 : ℝ) := by
      funext i
      rw [linspace01, if_pos (by omega)]
    have : (integrate g Tinit F ab th).time
        = List.ofFn fun _ : Fin g.nt => (0 : ℝ) := by
      rw [integrate]
      exact congrArg List.ofFn hfun
    rw [this, List.ofFn_const, h1]
    rfl

/-- C5, witness: the one-cell grid `gB` with `nt = 2`, `dt = 1/2` is valid
and its enthalpy output has `n = 1` rows. -/
theorem C5_witness :
    (1 ≤ gB.n ∧ 1 ≤ gB.nt ∧ 1 ≤ gB.dur ∧ gB.dt * (gB.nt : ℝ) = 1) ∧
    (integrate gB (fun _ => 0) 0 true true).Es.length = gB.n :=
  ⟨⟨le_refl 1, by norm_num [gB], le_refl 1, by norm_num [gB]⟩,
    (C5_output_shapes gB (fun _ => 0) 0 true true (le_refl 1)
      (by norm_num [gB]) (le_refl 1) (by norm_num [gB])).1⟩

/-! ### Claim C6 -/

/-- C6: with the sea-ice albedo feedback disabled, the returned
absorbed-shortwave array is, entry for entry, the open-water co-albedo
`a0 - a2*x^2` of the cell times the insolation at that (substep, cell),
regardless of the enthalpy anywhere. -/
theorem C6_absorbed_shortwave_feedback_off (g : Grid) (Tinit : Fin g.n → ℝ)
    (F : ℝ) (th : Bool) :
    (integrate g Tinit F false th).ASR
      = List.ofFn fun j : Fin g.n =>
          List.ofFn fun i : Fin g.nt =>
            (a0 - a2 * g.x j ^ 2) * insol g i j := by
  rw [integrate]
  simp only [ASRFun, alphaOf_off, aw]

/-! ### Claim C7 -/

theorem qs_closed_form (T P : ℝ) :
    saturation_specific_humidity T P
      = 0.622 * 610.78
          * Real.exp (-(2.5e6 / 461.5) * (1 / (T + 273.15) - 1 / 273.16))
          / P := by
  unfold saturation_specific_humidity
  ring

theorem one_sub_le_exp_neg (y : ℝ) : 1 - y ≤ Real.exp (-y) := by
  have := Real.add_one_le_exp (-y)
  linarith

theorem exp_neg_le_inv_one_add {y : ℝ} (hy : 0 < y) :
    Real.exp (-y) ≤ (1 + y)⁻¹ := by
  have h1 : 1 + y ≤ Real.exp y := by
    have := Real.add_one_le_exp y
    linarith
  have h2 : (0 : ℝ) < 1 + y := by linarith
  rw [Real.exp_neg]
  exact inv_le_inv_of_le h2 h1

/-- C7: `saturation_specific_humidity` is strictly increasing in the
temperature (on the physical domain where the Kelvin temperature
`T + 273.15` is positive) at any fixed positive pressure, strictly
decreasing in the pressure at any fixed temperature, and its value at
`T = 0` °C, `Ps = 1e5` Pa is approximately `0.00376` kg/kg (within
`4e-5`; the exact value is `≈ 0.0037963`). -/
theorem C7_saturation_humidity :
    (∀ P T1 T2 : ℝ, 0 < P → -273.15 < T1 → T1 < T2 →
      saturation_specific_humidity T1 P < saturation_specific_humidity T2 P) ∧
    (∀ T P1 P2 : ℝ, 0 < P1 → P1 < P2 →
      saturation_specific_humidity T P2 < saturation_specific_humidity T P1) ∧
    |saturation_specific_humidity 0 1e5 - 0.00376| < 0.00004 := by
  refine ⟨?_, ?_, ?_⟩
  · intro P T1 T2 hP hT1 h12
    have hK1 : (0 : ℝ) < T1 + 273.15 := by linarith
    have hK2 : (0 : ℝ) < T2 + 273.15 := by linarith
    have hinv : 1 / (T2 + 273.15) < 1 / (T1 + 273.15) :=
      one_div_lt_one_div_of_lt hK1 (by linarith)
    have hc : (0 : ℝ) < 2.5e6 / 461.5 := by norm_num
    have harg : -(2.5e6 / 461.5) * (1 / (T1 + 273.15) - 1 / 273.16)
        < -(2.5e6 / 461.5) * (1 / (T2 + 273.15) - 1 / 273.16) := by
      have hd : (0 : ℝ)
          < (2.5e6 / 461.5) * (1 / (T1 + 273.15) - 1 / (T2 + 273.15)) :=
        mul_pos hc (by linarith)
      nlinarith
    have hexp := Real.exp_lt_exp.mpr harg
    rw [qs_closed_form T1 P, qs_closed_form T2 P]
    have hpos : (0 : ℝ) < 0.622 * 610.78 / P := by positivity
    calc 0.622 * 610.78
          * Real.exp (-(2.5e6 / 461.5) * (1 / (T1 + 273.15) - 1 / 273.16)) / P
        = (0.622 * 610.78 / P)
            * Real.exp (-(2.5e6 / 461.5) * (1 / (T1 + 273.15) - 1 / 273.16)) := by
          ring
      _ < (0.622 * 610.78 / P)
            * Real.exp (-(2.5e6 / 461.5) * (1 / (T2 + 273.15) - 1 / 273.16)) :=
          (mul_lt_mul_left hpos).mpr hexp
      _ = 0.622 * 610.78
            * Real.exp (-(2.5e6 / 461.5) * (1 / (T2 + 273.15) - 1 / 273.16))
            / P := by ring
  · intro T P1 P2 hP1 h12
    rw [qs_closed_form T P1, qs_closed_form T P2]
    have hnum : (0 : ℝ) < 0.622 * 610.78
        * Real.exp (-(2.5e6 / 461.5) * (1 / (T + 273.15) - 1 / 273.16)) := by
      positivity
    exact div_lt_div_of_pos_left hnum hP1 h12
  · rw [qs_closed_form]
    have harg : -(2.5e6 / 461.5) * (1 / ((0 : ℝ) + 273.15) - 1 / 273.16)
        = -((2.5e6 / 461.5) * (1 / ((0 : ℝ) + 273.15) - 1 / 273.16)) := by
      ring
    rw [harg]
    generalize hgen :
      (2.5e6 / 461.5) * (1 / ((0 : ℝ) + 273.15) - 1 / 273.16) = y
    have hylo : (726 / 1000000 : ℝ) ≤ y := by rw [← hgen]; norm_num
    have hyhi : y ≤ (727 / 1000000 : ℝ) := by rw [← hgen]; norm_num
    have hypos : (0 : ℝ) < y := lt_of_lt_of_le (by norm_num) hylo
    have hlo : (999273 / 1000000 : ℝ) ≤ Real.exp (-y) := by
      have h1 := one_sub_le_exp_neg y
      linarith
    have hhi : Real.exp (-y) ≤ (1000000 / 1000726 : ℝ) := by
      have h1 := exp_neg_le_inv_one_add hypos
      have h2 : ((1 : ℝ) + y)⁻¹ ≤ ((1 : ℝ) + 726 / 1000000)⁻¹ :=
        inv_le_inv_of_le (by norm_num) (by linarith)
      have h3 : ((1 : ℝ) + 726 / 1000000)⁻¹ = 1000000 / 1000726 := by
        norm_num
      linarith [h3 ▸ h2]
    have heq : (0.622 * 610.78 * Real.exp (-y) / 1e5 : ℝ)
        = (37990516 / 10000000000 : ℝ) * Real.exp (-y) := by
      have hC : (0.622 * 610.78 / 1e5 : ℝ) = 37990516 / 10000000000 := by
        norm_num
      calc (0.622 * 610.78 * Real.exp (-y) / 1e5 : ℝ)
          = 0.622 * 610.78 / 1e5 * Real.exp (-y) := by ring
        _ = (37990516 / 10000000000 : ℝ) * Real.exp (-y) := by rw [hC]
    rw [abs_lt, heq]
    have hb1 : (0.00376 : ℝ) = 376 / 100000 := by norm_num
    have hb2 : (0.00004 : ℝ) = 4 / 100000 := by norm_num
    rw [hb1, hb2]
    constructor
    · nlinarith
    · nlinarith

/-- C7, witness: concrete instances of both monotonicity statements. -/
theorem C7_witness :
    ((0 : ℝ) < 1e5 ∧ (-273.15 : ℝ) < 0 ∧ (0 : ℝ) < 1 ∧ (1e5 : ℝ) < 2e5) ∧
    saturation_specific_humidity 0 1e5 < saturation_specific_humidity 1 1e5 ∧
    saturation_specific_humidity 0 2e5 < saturation_specific_humidity 0 1e5 :=
  ⟨⟨by norm_num, by norm_num, by norm_num, by norm_num⟩,
    C7_saturation_humidity.1 1e5 0 1 (by norm_num) (by norm_num) (by norm_num),
    C7_saturation_humidity.2.1 0 1e5 2e5 (by norm_num) (by norm_num)⟩

/-! ### Claim C8 -/

/-- C8: `integrate` is deterministic — two calls with the same grid and
identical initial temperature, forcing and toggle arguments return
identical outputs (the embedding is a pure function of its inputs;
the source reads no global mutable state and uses no randomness). -/
theorem C8_deterministic (g : Grid) (T1 T2 : Fin g.n → ℝ) (F1 F2 : ℝ)
    (ab1 ab2 th1 th2 : Bool) (hT : T1 = T2) (hF : F1 = F2)
    (hab : ab1 = ab2) (hth : th1 = th2) :
    integrate g T1 F1 ab1 th1 = integrate g T2 F2 ab2 th2 := by
  subst hT hF hab hth
  rfl

/-- C8, witness: two identical calls on the one-cell grid agree. -/
theorem C8_witness :
    integrate gA (fun _ => 0) 0 true true
      = integrate gA (fun _ => 0) 0 true true :=
  C8_deterministic gA (fun _ => 0) (fun _ => 0) 0 0 true true true true
    rfl rfl rfl rfl

/-! ### Claim C9 -/

theorem L1_succ_eq (m : ℕ) (dx : ℝ) (xb : Fin m → ℝ) (e : Fin m) :
    L1 (m + 1) dx xb e.succ = -lam dx xb e := by
  rw [L1, dif_neg (by simp)]
  exact congrArg (fun z => -lam dx xb z) (Fin.ext (by simp))

theorem L2_castSucc_eq (m : ℕ) (dx : ℝ) (xb : Fin m → ℝ) (e : Fin m) :
    L2 (m + 1) dx xb e.castSucc = -lam dx xb e := by
  rw [L2, dif_pos (show ((e.castSucc : ℕ)) < m + 1 - 1 by simp [e.isLt])]
  exact congrArg (fun z => -lam dx xb z) (Fin.ext rfl)

theorem sum_ite_val_eq {m : ℕ} (f : Fin (m + 1) → ℝ) (c : ℕ) :
    ∑ j : Fin (m + 1), (if (j : ℕ) = c then f j else 0)
      = if h : c < m + 1 then f ⟨c, h⟩ else 0 := by
  by_cases h : c < m + 1
  · rw [dif_pos h, Finset.sum_eq_single ⟨c, h⟩]
    · exact if_pos rfl
    · intro j _ hj
      exact if_neg fun hc => hj (Fin.ext hc)
    · exact fun hmem => absurd (Finset.mem_univ _) hmem
  · rw [dif_neg h]
    exact Finset.sum_eq_zero fun j _ =>
      if_neg fun hc => h (lt_of_eq_of_lt hc.symm j.isLt)

theorem sum_ite_pred_eq {m : ℕ} (f : Fin (m + 1) → ℝ) (i : Fin (m + 1)) :
    ∑ j : Fin (m + 1), (if (i : ℕ) = (j : ℕ) + 1 then f j else 0)
      = if h : 0 < (i : ℕ) then f ⟨(i : ℕ) - 1, by omega⟩ else 0 := by
  by_cases h : 0 < (i : ℕ)
  · rw [dif_pos h, Finset.sum_eq_single ⟨(i : ℕ) - 1, by omega⟩]
    · exact if_pos (show (i : ℕ) = (i : ℕ) - 1 + 1 by omega)
    · intro j _ hj
      refine if_neg fun hc => hj (Fin.ext ?_)
      show (j : ℕ) = (i : ℕ) - 1
      omega
    · exact fun hmem => absurd (Finset.mem_univ _) hmem
  · rw [dif_neg h]
    exact Finset.sum_eq_zero fun j _ => if_neg (by omega)

/-- Row `i` of `diffop *ᵥ v`: the diagonal term plus the superdiagonal
and subdiagonal neighbor terms (absent at the boundary rows). -/
theorem diffop_mulVec_eval (m : ℕ) (dx : ℝ) (xb : Fin m → ℝ)
    (v : Fin (m + 1) → ℝ) (i : Fin (m + 1)) :
    (diffop (m + 1) dx xb *ᵥ v) i
      = -(L3 (m + 1) dx xb i * v i)
        - (if h : (i : ℕ) + 1 < m + 1 then
            L2 (m + 1) dx xb i * v ⟨(i : ℕ) + 1, h⟩ else 0)
        - (if h : 0 < (i : ℕ) then
            L1 (m + 1) dx xb i * v ⟨(i : ℕ) - 1, by omega⟩ else 0) := by
  simp only [Matrix.mulVec, Matrix.dotProduct, diffop, Matrix.of_apply]
  simp only [sub_mul, neg_mul, ite_mul, zero_mul]
  rw [Finset.sum_sub_distrib, Finset.sum_sub_distrib, Finset.sum_neg_distrib]
  congr 1
  congr 1
  · rw [Finset.sum_ite_eq Finset.univ i (fun j => L3 (m + 1) dx xb i * v j)]
    simp
  · exact sum_ite_val_eq (fun j => L2 (m + 1) dx xb i * v j) ((i : ℕ) + 1)
  · exact sum_ite_pred_eq (fun j => L1 (m + 1) dx xb i * v j) i

theorem sum_L1_sq (m : ℕ) (dx : ℝ) (xb : Fin m → ℝ) (v : Fin (m + 1) → ℝ) :
    ∑ i : Fin (m + 1), L1 (m + 1) dx xb i * v i ^ 2
      = ∑ e : Fin m, -lam dx xb e * v e.succ ^ 2 := by
  rw [Fin.sum_univ_succ]
  have h0 : L1 (m + 1) dx xb 0 = 0 := dif_pos (by simp)
  rw [h0, zero_mul, zero_add]
  exact Finset.sum_congr rfl fun e _ => by rw [L1_succ_eq]

theorem sum_L2_sq (m : ℕ) (dx : ℝ) (xb : Fin m → ℝ) (v : Fin (m + 1) → ℝ) :
    ∑ i : Fin (m + 1), L2 (m + 1) dx xb i * v i ^ 2
      = ∑ e : Fin m, -lam dx xb e * v e.castSucc ^ 2 := by
  rw [Fin.sum_univ_castSucc]
  have hlast : L2 (m + 1) dx xb (Fin.last m) = 0 := dif_neg (by simp)
  rw [hlast, zero_mul, add_zero]
  exact Finset.sum_congr rfl fun e _ => by rw [L2_castSucc_eq]

theorem sum_sup_eval (m : ℕ) (dx : ℝ) (xb : Fin m → ℝ) (v : Fin (m + 1) → ℝ) :
    ∑ i : Fin (m + 1),
        (if h : (i : ℕ) + 1 < m + 1 then
          v i * (L2 (m + 1) dx xb i * v ⟨(i : ℕ) + 1, h⟩) else 0)
      = ∑ e : Fin m, v e.castSucc * (-lam dx xb e * v e.succ) := by
  rw [Fin.sum_univ_castSucc]
  rw [dif_neg (by simp)]
  rw [add_zero]
  refine Finset.sum_congr rfl fun e _ => ?_
  have he : ((e.castSucc : ℕ)) + 1 < m + 1 := by
    have := e.isLt
    simp only [Fin.coe_castSucc]
    omega
  rw [dif_pos he, L2_castSucc_eq,
    show (⟨(e.castSucc : ℕ) + 1, he⟩ : Fin (m + 1)) = e.succ from
      Fin.ext (by simp)]

theorem sum_sub_eval (m : ℕ) (dx : ℝ) (xb : Fin m → ℝ) (v : Fin (m + 1) → ℝ) :
    ∑ i : Fin (m + 1),
        (if h : 0 < (i : ℕ) then
          v i * (L1 (m + 1) dx xb i * v ⟨(i : ℕ) - 1, by omega⟩) else 0)
      = ∑ e : Fin m, v e.succ * (-lam dx xb e * v e.castSucc) := by
  rw [Fin.sum_univ_succ]
  rw [dif_neg (by simp)]
  rw [zero_add]
  refine Finset.sum_congr rfl fun e _ => ?_
  have he : 0 < ((e.succ : Fin (m + 1)) : ℕ) := by simp
  rw [dif_pos he, L1_succ_eq,
    show (⟨((e.succ : Fin (m + 1)) : ℕ) - 1, by omega⟩ : Fin (m + 1))
        = e.castSucc from Fin.ext (by simp)]

/-- The quadratic form of the diffusion operator is the negated weighted
sum of squared differences across cell boundaries. -/
theorem diffop_quadform (m : ℕ) (dx : ℝ) (xb : Fin m → ℝ)
    (v : Fin (m + 1) → ℝ) :
    v ⬝ᵥ (diffop (m + 1) dx xb *ᵥ v)
      = -∑ e : Fin m, lam dx xb e * (v e.castSucc - v e.succ) ^ 2 := by
  simp only [Matrix.dotProduct]
  simp_rw [diffop_mulVec_eval]
  have hterm : ∀ i : Fin (m + 1),
      v i * (-(L3 (m + 1) dx xb i * v i)
        - (if h : (i : ℕ) + 1 < m + 1 then
            L2 (m + 1) dx xb i * v ⟨(i : ℕ) + 1, h⟩ else 0)
        - (if h : 0 < (i : ℕ) then
            L1 (m + 1) dx xb i * v ⟨(i : ℕ) - 1, by omega⟩ else 0))
      = (L1 (m + 1) dx xb i * v i ^ 2 + L2 (m + 1) dx xb i * v i ^ 2)
        - (if h : (i : ℕ) + 1 < m + 1 then
            v i * (L2 (m + 1) dx xb i * v ⟨(i : ℕ) + 1, h⟩) else 0)
        - (if h : 0 < (i : ℕ) then
            v i * (L1 (m + 1) dx xb i * v ⟨(i : ℕ) - 1, by omega⟩) else 0) := by
    intro i
    rw [L3]
    split_ifs <;> ring
  simp_rw [hterm]
  rw [Finset.sum_sub_distrib, Finset.sum_sub_distrib,
    Finset.sum_add_distrib, sum_L1_sq, sum_L2_sq, sum_sup_eval, sum_sub_eval]
  rw [← Finset.sum_add_distrib, ← Finset.sum_sub_distrib,
    ← Finset.sum_sub_distrib, ← Finset.sum_neg_distrib]
  exact Finset.sum_congr rfl fun e _ => by ring

theorem lam_nonneg (dx : ℝ) {m : ℕ} (xb : Fin m → ℝ)
    (hxb : ∀ e, xb e ^ 2 ≤ 1) (e : Fin m) : 0 ≤ lam dx xb e := by
  rw [lam]
  apply mul_nonneg
  · apply div_nonneg (by norm_num [D])
    positivity
  · linarith [hxb e]

theorem diffop_quadform_nonpos (n : ℕ) (dx : ℝ) (xb : Fin (n - 1) → ℝ)
    (hxb : ∀ e, xb e ^ 2 ≤ 1) (v : Fin n → ℝ) :
    v ⬝ᵥ (diffop n dx xb *ᵥ v) ≤ 0 := by
  cases n with
  | zero => simp [Matrix.dotProduct]
  | succ m =>
    rw [diffop_quadform m dx xb v]
    have h : 0 ≤ ∑ e : Fin m, lam dx xb e * (v e.castSucc - v e.succ) ^ 2 :=
      Finset.sum_nonneg fun e _ =>
        mul_nonneg (lam_nonneg dx xb hxb e) (sq_nonneg _)
    linarith

theorem L2_eq_L1_of_adjacent (n : ℕ) (dx : ℝ) (xb : Fin (n - 1) → ℝ)
    (i j : Fin n) (h : (j : ℕ) = (i : ℕ) + 1) :
    L2 n dx xb i = L1 n dx xb j := by
  have hi : (i : ℕ) < n - 1 := by
    have := j.isLt
    omega
  rw [L2, dif_pos hi, L1, dif_neg (by omega)]
  exact congrArg (fun z => -lam dx xb z) (Fin.ext (by simp; omega))

theorem diffop_symm_entry (n : ℕ) (dx : ℝ) (xb : Fin (n - 1) → ℝ)
    (i j : Fin n) : diffop n dx xb i j = diffop n dx xb j i := by
  simp only [diffop, Matrix.of_apply]
  rcases eq_or_ne i j with rfl | hij
  · rfl
  · have hij' : ¬ j = i := fun hc => hij hc.symm
    by_cases h2 : (j : ℕ) = (i : ℕ) + 1
    · rw [if_neg hij, if_neg hij', if_pos h2, if_pos h2,
        if_neg (by omega), if_neg (by omega),
        L2_eq_L1_of_adjacent n dx xb i j h2]
      ring
    · by_cases h3 : (i : ℕ) = (j : ℕ) + 1
      · rw [if_neg hij, if_neg hij', if_pos h3, if_pos h3,
          if_neg (by omega), if_neg (by omega),
          L2_eq_L1_of_adjacent n dx xb j i h3]
        ring
      · rw [if_neg hij, if_neg hij', if_neg h2, if_neg h2,
          if_neg h3, if_neg h3]

/-- C9, counterexample: the claim "negative definite" fails.  On the valid
two-cell grid with `dx = 1`, `xb = 0`, the constant vector `(1,1)` is
nonzero but its quadratic form under the diffusion operator is `0`, not
negative (the operator annihilates constants: rows sum to zero). -/
theorem C9_counterexample :
    ¬ (∀ (g : Grid), g.dx ≠ 0 → (∀ e, g.xb e ^ 2 ≤ 1) →
        ∀ v : Fin g.n → ℝ, v ≠ 0 →
          v ⬝ᵥ (diffop g.n g.dx g.xb *ᵥ v) < 0) := by
  intro hclaim
  set g2 : Grid :=
    { n := 2, dx := 1, x := fun _ => 0, xb := fun _ => 0
      nt := 1, dur := 1, dt := 1 } with hg2
  have hv : (![1, 1] : Fin 2 → ℝ) ≠ 0 := by
    intro h0
    have := congrFun h0 0
    norm_num at this
  have hQ := hclaim g2 (by norm_num) (fun e => by norm_num)
    (![1, 1] : Fin g2.n → ℝ) hv
  have hzero : (![1, 1] : Fin 2 → ℝ)
      ⬝ᵥ (diffop 2 1 (fun _ => 0) *ᵥ (![1, 1] : Fin 2 → ℝ)) = 0 := by
    rw [diffop_quadform 1 1 (fun _ => 0) (![1, 1] : Fin 2 → ℝ)]
    rw [Fin.sum_univ_one]
    norm_num
  rw [hzero] at hQ
  exact lt_irrefl 0 hQ

/-- C9 (amended): for every valid grid (`dx ≠ 0`, boundary coordinates in
`[-1, 1]`), the diffusion operator built at the start of `integrate` is
symmetric, tridiagonal, and negative **semi**-definite
(`v ⬝ᵥ (DiffOp *ᵥ v) ≤ 0` for every `v`; it vanishes on constant vectors,
so it is not negative definite). -/
theorem C9_diffusion_operator (g : Grid) (hdx : g.dx ≠ 0)
    (hxb : ∀ e, g.xb e ^ 2 ≤ 1) :
    (∀ i j, diffop g.n g.dx g.xb i j = diffop g.n g.dx g.xb j i) ∧
    (∀ i j : Fin g.n, (i : ℕ) + 2 ≤ (j : ℕ) ∨ (j : ℕ) + 2 ≤ (i : ℕ) →
      diffop g.n g.dx g.xb i j = 0) ∧
    (∀ v : Fin g.n → ℝ, v ⬝ᵥ (diffop g.n g.dx g.xb *ᵥ v) ≤ 0) := by
  refine ⟨fun i j => diffop_symm_entry g.n g.dx g.xb i j, fun i j h => ?_,
    fun v => diffop_quadform_nonpos g.n g.dx g.xb hxb v⟩
  simp only [diffop, Matrix.of_apply]
  rw [if_neg (by rintro rfl; omega), if_neg (by omega), if_neg (by omega)]
  ring

/-- C9, witness: the two-cell grid with `dx = 1`, `xb = 0` satisfies the
validity hypotheses, and the quadratic form at `(1, -1)` is nonpositive. -/
theorem C9_witness :
    ((1 : ℝ) ≠ 0 ∧ ∀ e : Fin 1, (0 : ℝ) ^ 2 ≤ 1) ∧
    (![1, -1] : Fin 2 → ℝ)
        ⬝ᵥ (diffop 2 1 (fun _ => 0) *ᵥ (![1, -1] : Fin 2 → ℝ)) ≤ 0 :=
  ⟨⟨by norm_num, fun e => by norm_num⟩,
    (C9_diffusion_operator
      { n := 2, dx := 1, x := fun _ => 0, xb := fun _ => 0
        nt := 1, dur := 1, dt := 1 }
      (by norm_num) (fun e => by norm_num)).2.2 (![1, -1] : Fin 2 → ℝ)⟩

/-! ### Claim C10 -/

/-- A heap of numpy arrays: array ids map to (flat, row-major) contents;
`next` is the next fresh id.  Name rebindings in the source (`T = ...`,
`E = ...`, `Tg = ...`) allocate fresh arrays; the only in-place writes in
`model` are the slice assignments `Es_output[:,i] = ...`,
`Ts_output[:,i] = ...`, `ASR_output[:,i] = ...`. -/
structure Store where
  heap : ℕ → ℕ → ℝ
  next : ℕ

/-- Allocate a fresh array (e.g. `np.zeros((n,nt))`). -/
def Store.alloc (s : Store) (a : ℕ → ℝ) : ℕ × Store :=
  (s.next, { heap := Function.update s.heap s.next a, next := s.next + 1 })

/-- Write one entry of an existing array in place. -/
def Store.writeAt (s : Store) (id idx : ℕ) (val : ℝ) : Store :=
  { heap := Function.update s.heap id (Function.update (s.heap id) idx val)
    next := s.next }

/-- Slice assignment `arr[:, i] = vals` on an `(n, nt)` row-major array with id `id`. -/
def writeCol (n nt i : ℕ) (vals : Fin n → ℝ) (id : ℕ) (s : Store) : Store :=
  (List.finRange n).foldl
    (fun st (j : Fin n) => st.writeAt id (j.val * nt + i) (vals j)) s

/-- Store side of substep `kk`: during the final year
(`kk ≥ (dur-1)*nt`) the three output columns `i = kk % nt` receive the
pre-update snapshots `E`, `T`, `alpha*S[i,:]`; other substeps write
nothing.  The model state itself is pure (`stateAt`): the source rebinds
`T`, `E`, `Tg` to freshly computed arrays and never writes into them. -/
def storeSubstep (g : Grid) (Tinit : Fin g.n → ℝ) (F : ℝ) (ab th : Bool)
    (esId tsId asrId : ℕ) (kk : ℕ) (s : Store) : Store :=
  if (g.dur - 1) * g.nt ≤ kk then
    let st := stateAt g Tinit F ab th kk
    let i := kk % g.nt
    writeCol g.n g.nt i (fun j => alphaOf ab g st.E j * insol g i j) asrId
      (writeCol g.n g.nt i st.T tsId
        (writeCol g.n g.nt i st.E esId s))
  else s

/-- Run the first `kk` substeps (store side). -/
def storeRun (g : Grid) (Tinit : Fin g.n → ℝ) (F : ℝ) (ab th : Bool)
    (esId tsId asrId : ℕ) : ℕ → Store → Store
  | 0, s => s
  | kk + 1, s =>
    storeSubstep g Tinit F ab th esId tsId asrId kk
      (storeRun g Tinit F ab th esId tsId asrId kk s)

/-- Version of `model` with its caller-supplied arrays (`x`, `xb`, `T_init`) living in
a store at ids `xId`, `xbId`, `TId`: the grid and initial state are read
from the store, the three output arrays are freshly allocated
(`np.zeros((n,nt))`), and the loop runs `dur*nt` substeps.  Returns the
final store and the three output ids. -/
def integrateStore (n nt dur : ℕ) (dx dt F : ℝ) (ab th : Bool)
    (xId xbId TId : ℕ) (s0 : Store) : Store × ℕ × ℕ × ℕ :=
  let g : Grid :=
    { n := n, dx := dx, x := fun j => s0.heap xId (j : ℕ)
      xb := fun e => s0.heap xbId (e : ℕ), nt := nt, dur := dur, dt := dt }
  let Tinit : Fin n → ℝ := fun j => s0.heap TId (j : ℕ)
  let es := s0.alloc fun _ => 0
  let ts := es.2.alloc fun _ => 0
  let asr := ts.2.alloc fun _ => 0
  (storeRun g Tinit F ab th es.1 ts.1 asr.1 (dur * nt) asr.2,
    es.1, ts.1, asr.1)

theorem writeAt_heap_ne (s : Store) (id idx : ℕ) (val : ℝ) (idr : ℕ)
    (h : idr ≠ id) : (s.writeAt id idx val).heap idr = s.heap idr :=
  Function.update_noteq h _ _

theorem writeCol_heap_ne (n nt i : ℕ) (vals : Fin n → ℝ) (id : ℕ)
    (idr : ℕ) (h : idr ≠ id) :
    ∀ s : Store, (writeCol n nt i vals id s).heap idr = s.heap idr := by
  simp only [writeCol]
  induction List.finRange n with
  | nil => exact fun s => rfl
  | cons a l ih =>
    intro s
    rw [List.foldl_cons]
    rw [ih (s.writeAt id ((a : ℕ) * nt + i) (vals a))]
    exact writeAt_heap_ne s id _ _ idr h

theorem storeSubstep_heap_ne (g : Grid) (Tinit : Fin g.n → ℝ) (F : ℝ)
    (ab th : Bool) (esId tsId asrId : ℕ) (kk : ℕ) (s : Store) (idr : ℕ)
    (h1 : idr ≠ esId) (h2 : idr ≠ tsId) (h3 : idr ≠ asrId) :
    (storeSubstep g Tinit F ab th esId tsId asrId kk s).heap idr
      = s.heap idr := by
  rw [storeSubstep]
  split
  · rw [writeCol_heap_ne _ _ _ _ _ _ h3, writeCol_heap_ne _ _ _ _ _ _ h2,
      writeCol_heap_ne _ _ _ _ _ _ h1]
  · rfl

theorem storeRun_heap_ne (g : Grid) (Tinit : Fin g.n → ℝ) (F : ℝ)
    (ab th : Bool) (esId tsId asrId : ℕ) (idr : ℕ)
    (h1 : idr ≠ esId) (h2 : idr ≠ tsId) (h3 : idr ≠ asrId) (kk : ℕ) :
    ∀ s : Store,
      (storeRun g Tinit F ab th esId tsId asrId kk s).heap idr
        = s.heap idr := by
  induction kk with
  | zero => exact fun s => rfl
  | succ kk ih =>
    intro s
    rw [storeRun, storeSubstep_heap_ne g Tinit F ab th esId tsId asrId kk
      _ idr h1 h2 h3, ih s]

theorem alloc3_heap_lt (s0 : Store) (a b c : ℕ → ℝ) (idr : ℕ)
    (h : idr < s0.next) :
    (((s0.alloc a).2.alloc b).2.alloc c).2.heap idr = s0.heap idr := by
  simp only [Store.alloc]
  rw [Function.update_noteq (by omega : idr ≠ s0.next + 1 + 1),
    Function.update_noteq (by omega : idr ≠ s0.next + 1),
    Function.update_noteq (by omega : idr ≠ s0.next)]

/-- C10: `integrateStore` never writes into the caller-supplied arrays:
after the full run, the grid coordinate arrays (ids `xId`, `xbId`) and the
initial-temperature array (id `TId`) hold exactly the values they held
before the call.  (All in-place writes target the three freshly allocated
output arrays; `T`, `E`, `Tg` are rebound to fresh values each substep.) -/
theorem C10_no_input_mutation (n nt dur : ℕ) (dx dt F : ℝ) (ab th : Bool)
    (xId xbId TId : ℕ) (s0 : Store)
    (hx : xId < s0.next) (hxb : xbId < s0.next) (hT : TId < s0.next) :
    (∀ m, (integrateStore n nt dur dx dt F ab th xId xbId TId s0).1.heap
        xId m = s0.heap xId m) ∧
    (∀ m, (integrateStore n nt dur dx dt F ab th xId xbId TId s0).1.heap
        xbId m = s0.heap xbId m) ∧
    (∀ m, (integrateStore n nt dur dx dt F ab th xId xbId TId s0).1.heap
        TId m = s0.heap TId m) := by
  have key : ∀ idr, idr < s0.next → ∀ m,
      (integrateStore n nt dur dx dt F ab th xId xbId TId s0).1.heap idr m
        = s0.heap idr m := by
    intro idr hid m
    show (storeRun _ _ F ab th ((s0.alloc fun _ => 0).1)
        (((s0.alloc fun _ => 0).2.alloc fun _ => 0).1)
        ((((s0.alloc fun _ => 0).2.alloc fun _ => 0).2.alloc fun _ => 0).1)
        (dur * nt)
        ((((s0.alloc fun _ => 0).2.alloc fun _ => 0).2.alloc
          fun _ => 0).2)).heap idr m = s0.heap idr m
    have hids : ((s0.alloc fun _ => 0).1) = s0.next ∧
        (((s0.alloc fun _ => 0).2.alloc fun _ => 0).1) = s0.next + 1 ∧
        ((((s0.alloc fun _ => 0).2.alloc fun _ => 0).2.alloc
          fun _ => 0).1) = s0.next + 2 := ⟨rfl, rfl, rfl⟩
    rw [storeRun_heap_ne _ _ F ab th _ _ _ idr
      (by rw [hids.1]; omega) (by rw [hids.2.1]; omega)
      (by rw [hids.2.2]; omega) (dur * nt)]
    rw [alloc3_heap_lt s0 _ _ _ idr hid]
  exact ⟨key xId hx, key xbId hxb, key TId hT⟩

/-- C10, witness: with three input arrays at ids `0`, `1`, `2` in a store
whose next fresh id is `3`, the initial-temperature array is unchanged by
the run. -/
theorem C10_witness :
    ((0 : ℕ) < 3 ∧ (1 : ℕ) < 3 ∧ (2 : ℕ) < 3) ∧
    (integrateStore 1 1 1 1 1 0 true true 0 1 2
        ⟨fun _ _ => 0, 3⟩).1.heap 2 0
      = (⟨fun _ _ => 0, 3⟩ : Store).heap 2 0 :=
  ⟨⟨by norm_num, by norm_num, by norm_num⟩,
    (C10_no_input_mutation 1 1 1 1 1 0 true true 0 1 2 ⟨fun _ _ => 0, 3⟩
      (by norm_num) (by norm_num) (by norm_num)).2.2 0⟩

end SCM

end
